import Mathlib

/-!
A shallow embedding of the ink! staking contract in `src/staking/lib.rs`.

Modelling conventions:
* `Balance` (`u128`) values are modelled as `Nat`.  The contract's own
  arithmetic only ever subtracts `u128`s (which panics on underflow in a
  checked build); those subtractions are modelled with an explicit
  `≤`-guard whose failure produces `none` (a panic).  `block_number()` is a
  `u32` widened to `u128`, so the multiplications in `get_unstakable`
  cannot overflow `u128`; they are modelled as plain `Nat` arithmetic.
* The two `StorageHashMap`s are modelled as functions
  `AccountId → Option (List _)`; a missing key is `none` and `unwrap` on a
  missing key is a panic (`none` result of the operation).
* Calls into the external ERC-20 contract are not interpreted; each
  operation returns the list of calls it instructs, in order.  The ERC-20
  `balance_of` read used by `stake` is supplied by the environment.
* Panicking operations return `Option`: `none` is an abort (panic), and
  `some` carries the poststate and the instructed token calls.
-/

/-- Account identifiers (opaque 32-byte ids in ink!); any type with
decidable equality works, we use `Nat`. -/
abbrev AccountId := Nat

/-- `struct Stake { amount: Balance, timestamp: Balance }`. -/
structure Stake where
  amount : Nat
  timestamp : Nat
  deriving DecidableEq, Repr

/-- A call instructed to the external ERC-20 token contract:
`approve_from_to(src, dst, amt)` or `transfer_from(src, dst, amt)`. -/
inductive Call where
  | approve (src dst : AccountId) (amt : Nat)
  | transfer (src dst : AccountId) (amt : Nat)
  deriving DecidableEq, Repr

/-- The contract storage: `staked`, `unstaked`, `staking_time`,
`block_time`.  The external token reference is not part of the model. -/
structure Staking where
  staked : AccountId → Option (List Stake)
  unstaked : AccountId → Option (List Nat)
  staking_time : Nat
  block_time : Nat

/-- The host-environment inputs of one message execution: `caller()`,
`account_id()` (the contract's own account), `block_number()`, and the
external token's `balance_of` view. -/
structure Env where
  caller : AccountId
  me : AccountId
  blockNumber : Nat
  tokenBalance : AccountId → Nat

/-- Pointwise update of a storage map (an insert when `v = some _`). -/
def mapSet (m : AccountId → Option α) (k : AccountId) (v : Option α) :
    AccountId → Option α :=
  fun x => if x = k then v else m x

/-- The constructor `new`: empty maps, `staking_time = 86400 * 5`,
`block_time = 5`.  (The ERC-20 instance address is dropped: the token is
external to the model.) -/
def Staking.new : Staking :=
  { staked := fun _ => none
    unstaked := fun _ => none
    staking_time := 86400 * 5
    block_time := 5 }

/-- `get_unstakable(_start)`: the unlock-curve evaluator.  `bn` is the
current block number.  Mirrors lines 128-141 of the source; the local
`times`/`clocks` variables are inlined. -/
def Staking.get_unstakable (s : Staking) (bn start : Nat) : Nat :=
  if bn < start then 0
  else if 5 < (bn - start) * s.block_time / (s.staking_time / 5) then 10
  else if (bn - start) * s.block_time / (s.staking_time / 5) = 0 then 0
  else 4 + (bn - start) * s.block_time / (s.staking_time / 5)

/-- The per-entry unlockable amount used by the walks of `claim` and
`claim_all` (lines 217-221 and 261-265):
`get_unstakable(stake.timestamp) * stake.amount / 10 - unstaked[i]`. -/
def claimEntryU (s : Staking) (bn : Nat) (st : Stake) (w : Nat) : Nat :=
  s.get_unstakable bn st.timestamp * st.amount / 10 - w

/-- The per-entry contribution of the balance query `get_balance`
(lines 153-157): the evaluator applied to the derived value
`stake.timestamp * stake.amount / 10 - unstaked[i]`. -/
def balanceEntryU (s : Staking) (bn : Nat) (st : Stake) (w : Nat) : Nat :=
  s.get_unstakable bn (st.timestamp * st.amount / 10 - w)

/-- The `(0..length).for_each` accumulation of `get_balance`, as a
countdown over the `n` remaining indices starting at index `i`
(`i + n = length` at every call).  The `u128` subtraction
`staked_time * staked_amount / 10 - unstaked[i]` panics on underflow,
modelled by the `≤`-guard; an out-of-range index on either vector is a
panic too. -/
def balanceFrom (s : Staking) (bn : Nat) (stakedV : List Stake)
    (unO : Option (List Nat)) : Nat → Nat → Nat → Option Nat
  | 0, _, balance => some balance
  | n + 1, i, balance =>
    match stakedV[i]? with
    | none => none
    | some st =>
      match unO with
      | none => none
      | some unL =>
        match unL[i]? with
        | none => none
        | some w =>
          if w ≤ st.timestamp * st.amount / 10 then
            balanceFrom s bn stakedV unO n (i + 1)
              (balance + balanceEntryU s bn st w)
          else none

/-- `get_balance(_addr)` (lines 147-160): sums the evaluator applied to
`staked_time * staked_amount / 10 - unstaked[i]` over all entries.
`unwrap()` of a missing `staked` key is a panic (`none`). -/
def Staking.get_balance (s : Staking) (bn : Nat) (addr : AccountId) :
    Option Nat :=
  match s.staked addr with
  | none => none
  | some stakedV => balanceFrom s bn stakedV (s.unstaked addr) stakedV.length 0 0

/-- `get_staked_timestamp(_addr, _index)` (lines 182-184).  Note the
source indexes `[0]`, ignoring `_index`. -/
def Staking.get_staked_timestamp (s : Staking) (addr : AccountId)
    (_index : Nat) : Option Nat :=
  match s.staked addr with
  | none => none
  | some v =>
    match v[0]? with
    | none => none
    | some st => some st.timestamp

/-- `get_staked_amount(_addr, _index)` (lines 190-192).  Note the source
indexes `[0]`, ignoring `_index`. -/
def Staking.get_staked_amount (s : Staking) (addr : AccountId)
    (_index : Nat) : Option Nat :=
  match s.staked addr with
  | none => none
  | some v =>
    match v[0]? with
    | none => none
    | some st => some st.amount

/-- `stake(_amount)` (lines 90-122): reject if the caller's token balance
is below `_amount`; otherwise push `Stake { timestamp: now, amount }` and
a `0` withdrawn entry (inserting fresh singleton vectors when the key is
absent), then instruct `approve_from_to` and `transfer_from` moving
`_amount` from the caller to the contract. -/
def Staking.stake (s : Staking) (env : Env) (amt : Nat) :
    Staking × List Call :=
  if env.tokenBalance env.caller < amt then (s, [])
  else
    let staked2 : List Stake :=
      match s.staked env.caller with
      | some v => v ++ [{ amount := amt, timestamp := env.blockNumber }]
      | none => [{ amount := amt, timestamp := env.blockNumber }]
    let unstaked2 : List Nat :=
      match s.unstaked env.caller with
      | some v => v ++ [0]
      | none => [0]
    ({ s with
        staked := mapSet s.staked env.caller (some staked2)
        unstaked := mapSet s.unstaked env.caller (some unstaked2) },
      [Call.approve env.caller env.me amt,
       Call.transfer env.caller env.me amt])

/-- The reconciliation loop of `claim` (lines 213-238), with an explicit
iteration budget `fuel` (outer `none` = budget exhausted; the loop itself
is unbounded in the source, and fuel `staked.length - i + 1` is proved
sufficient below).  Inner `none` is a panic: `unwrap()` of a missing
`unstaked` key, an out-of-range `unstaked[i]`, or `u128` underflow in
`get_unstakable(..) * amount / 10 - unstaked[i]`.  The source's mutable
`length` variable always equals the current length of the `staked`
vector, which the model uses directly. -/
def claimLoopF (s : Staking) (bn : Nat) :
    Nat → List Stake → Option (List Nat) → Nat → Nat →
    Option (Option (List Stake × Option (List Nat)))
  | 0, _, _, _, _ => none
  | fuel + 1, staked, unO, i, amount =>
    if i < staked.length ∧ 0 < amount then
      match staked[i]? with
      | none => some none       -- unreachable: the loop guard bounds i
      | some st =>
        match unO with
        | none => some none
        | some unL =>
          match unL[i]? with
          | none => some none
          | some w =>
          if w ≤ s.get_unstakable bn st.timestamp * st.amount / 10 then
            if amount < claimEntryU s bn st w then
              -- `unstaked[i] += amount; amount = 0` and the guard ends the loop
              some (some (staked, some (unL.set i (w + amount))))
            else if st.amount = w + claimEntryU s bn st w then
              claimLoopF s bn fuel (staked.eraseIdx i)
                (some ((unL.set i (w + claimEntryU s bn st w)).eraseIdx i)) i
                (amount - claimEntryU s bn st w)
            else
              claimLoopF s bn fuel staked
                (some (unL.set i (w + claimEntryU s bn st w))) (i + 1)
                (amount - claimEntryU s bn st w)
          else some none
    else some (some (staked, unO))

/-- `claim(_amount)` (lines 198-241): reject (silent no-op, no calls)
when `get_balance(caller) < _amount`; otherwise run the reconciliation
walk from index 0 and instruct `approve_from_to` and `transfer_from`
moving the original `_claim_amount` from the contract to the caller. -/
def Staking.claim (s : Staking) (env : Env) (amt : Nat) :
    Option (Staking × List Call) :=
  match s.get_balance env.blockNumber env.caller with
  | none => none
  | some b =>
    if b < amt then some (s, [])
    else
      match s.staked env.caller with
      | none => none
      | some stakedV =>
        match claimLoopF s env.blockNumber (stakedV.length + 1) stakedV
            (s.unstaked env.caller) 0 amt with
        | none => none          -- unreachable: the fuel bound is sufficient
        | some none => none     -- a panic inside the loop
        | some (some (st2, un2)) =>
          some ({ s with
                    staked := mapSet s.staked env.caller (some st2)
                    unstaked := mapSet s.unstaked env.caller un2 },
                [Call.approve env.me env.caller amt,
                 Call.transfer env.me env.caller amt])

/-- The reconciliation loop of `claim_all` (lines 257-276): like
`claimLoopF` but with no remaining-amount budget — every entry's full
`unstakable` is added to `unstaked[i]`. -/
def claimAllLoopF (s : Staking) (bn : Nat) :
    Nat → List Stake → Option (List Nat) → Nat →
    Option (Option (List Stake × Option (List Nat)))
  | 0, _, _, _ => none
  | fuel + 1, staked, unO, i =>
    if i < staked.length then
      match staked[i]? with
      | none => some none       -- unreachable: the loop guard bounds i
      | some st =>
        match unO with
        | none => some none
        | some unL =>
          match unL[i]? with
          | none => some none
          | some w =>
          if w ≤ s.get_unstakable bn st.timestamp * st.amount / 10 then
            if st.amount = w + claimEntryU s bn st w then
              claimAllLoopF s bn fuel (staked.eraseIdx i)
                (some ((unL.set i (w + claimEntryU s bn st w)).eraseIdx i)) i
            else
              claimAllLoopF s bn fuel staked
                (some (unL.set i (w + claimEntryU s bn st w))) (i + 1)
          else some none
    else some (some (staked, unO))

/-- `claim_all()` (lines 247-279): reject (silent no-op, no calls) when
`get_balance(caller) <= 0`; otherwise exhaust every entry's unlocked
remainder and instruct `approve_from_to` and `transfer_from` with the
pre-computed balance — note the source passes `(caller, account_id)`,
i.e. FROM the caller TO the contract. -/
def Staking.claim_all (s : Staking) (env : Env) :
    Option (Staking × List Call) :=
  match s.get_balance env.blockNumber env.caller with
  | none => none
  | some balance =>
    if balance ≤ 0 then some (s, [])
    else
      match s.staked env.caller with
      | none => none
      | some stakedV =>
        match claimAllLoopF s env.blockNumber (stakedV.length + 1) stakedV
            (s.unstaked env.caller) 0 with
        | none => none          -- unreachable: the fuel bound is sufficient
        | some none => none     -- a panic inside the loop
        | some (some (st2, un2)) =>
          some ({ s with
                    staked := mapSet s.staked env.caller (some st2)
                    unstaked := mapSet s.unstaked env.caller un2 },
                [Call.approve env.caller env.me balance,
                 Call.transfer env.caller env.me balance])

/-- The parallel-sequence invariant: for every account, `staked` and
`unstaked` are either both absent or both present, and their entry
sequences have equal lengths. -/
def SyncInv (s : Staking) : Prop :=
  ∀ a, (s.staked a).isSome = (s.unstaked a).isSome
    ∧ ((s.staked a).getD []).length = ((s.unstaked a).getD []).length

/-- A concrete environment: caller is account 1, the contract is
account 0, every account holds 1000 external tokens. -/
def envA (bn : Nat) : Env :=
  { caller := 1, me := 0, blockNumber := bn, tokenBalance := fun _ => 1000 }

/-- The state after account 1 stakes 100 at block 0 on a fresh
contract. -/
def sA : Staking := (Staking.new.stake (envA 0) 100).1

/-- The state after `sA` (stake of 100 at block 0) and a further stake of
50 at block 7 by the same account. -/
def sC : Staking := (sA.stake (envA 7) 50).1

/-! ## Properties of the unlock-curve evaluator -/

lemma Staking.new_block_time : Staking.new.block_time = 5 := rfl

lemma Staking.new_staking_time : Staking.new.staking_time = 86400 * 5 := rfl

lemma get_unstakable_le_ten (s : Staking) (bn start : Nat) :
    s.get_unstakable bn start ≤ 10 := by
  unfold Staking.get_unstakable
  split_ifs <;> omega

lemma get_unstakable_mono_bn (s : Staking) {bn bn' : Nat} (start : Nat)
    (h : bn ≤ bn') :
    s.get_unstakable bn start ≤ s.get_unstakable bn' start := by
  unfold Staking.get_unstakable
  have h1 : bn - start ≤ bn' - start := by omega
  set c1 := (bn - start) * s.block_time / (s.staking_time / 5) with hc1
  set c2 := (bn' - start) * s.block_time / (s.staking_time / 5) with hc2
  have hc : c1 ≤ c2 := Nat.div_le_div_right (Nat.mul_le_mul_right _ h1)
  clear_value c1 c2
  split_ifs <;> omega

lemma get_unstakable_anti_start (s : Staking) (bn : Nat) {start start' : Nat}
    (h : start ≤ start') :
    s.get_unstakable bn start' ≤ s.get_unstakable bn start := by
  unfold Staking.get_unstakable
  have h1 : bn - start' ≤ bn - start := Nat.sub_le_sub_left h bn
  set c1 := (bn - start') * s.block_time / (s.staking_time / 5) with hc1
  set c2 := (bn - start) * s.block_time / (s.staking_time / 5) with hc2
  have hc : c1 ≤ c2 := Nat.div_le_div_right (Nat.mul_le_mul_right _ h1)
  clear_value c1 c2
  split_ifs <;> omega

lemma new_get_unstakable_clocks (bn start : Nat) (h : start ≤ bn) :
    Staking.new.get_unstakable bn start =
      (if 5 < (bn - start) * 5 / 86400 then 10
       else if (bn - start) * 5 / 86400 = 0 then 0
       else 4 + (bn - start) * 5 / 86400) := by
  unfold Staking.get_unstakable
  rw [Staking.new_block_time, Staking.new_staking_time, if_neg (by omega)]

/-- C5: the unlock-curve evaluator `get_unstakable` is a pure total
function (a Lean `def` with no side conditions): its result is always in
`[0, 10]`; when the deposit tick `start` lies in the future relative to
the current block `bn` it returns 0; and it is monotonically
non-decreasing in elapsed time — non-decreasing in the block number for a
fixed `start`, equivalently non-increasing in `start` for a fixed block
number. -/
theorem get_unstakable_total_bounded_monotone
    (s : Staking) (bn bn' start start' : Nat) :
    s.get_unstakable bn start ≤ 10
    ∧ (bn < start → s.get_unstakable bn start = 0)
    ∧ (bn ≤ bn' → s.get_unstakable bn start ≤ s.get_unstakable bn' start)
    ∧ (start ≤ start' →
        s.get_unstakable bn start' ≤ s.get_unstakable bn start) := by
  refine ⟨get_unstakable_le_ten s bn start, ?_,
    fun h => get_unstakable_mono_bn s start h,
    fun h => get_unstakable_anti_start s bn h⟩
  intro h
  unfold Staking.get_unstakable
  rw [if_pos h]

/-- Witness for C5 at concrete inputs. -/
theorem get_unstakable_total_bounded_monotone_witness :
    Staking.new.get_unstakable 86400 0 ≤ 10
    ∧ Staking.new.get_unstakable 0 5 = 0
    ∧ Staking.new.get_unstakable 100 0 ≤ Staking.new.get_unstakable 86400 0
    ∧ Staking.new.get_unstakable 86400 3 ≤ Staking.new.get_unstakable 86400 0 :=
  ⟨(get_unstakable_total_bounded_monotone Staking.new 86400 86400 0 0).1,
   (get_unstakable_total_bounded_monotone Staking.new 0 0 5 5).2.1 (by decide),
   (get_unstakable_total_bounded_monotone Staking.new 100 86400 0 0).2.2.1
     (by decide),
   (get_unstakable_total_bounded_monotone Staking.new 86400 86400 0 3).2.2.2
     (by decide)⟩

/-- C4: with the constructor's constants (`staking_period = 432000`,
`tick_duration = 5`, so `clocks = elapsed * 5 / 86400` with
`elapsed = bn - start`), the evaluator satisfies the boundary table:
elapsed 0 ↦ 0; clocks 1 ↦ 5; clocks 5 ↦ 9; clocks 6 ↦ 10;
clocks 100 ↦ 10; and in general clocks 0 ↦ 0, clocks in 1..5 ↦
4 + clocks, clocks > 5 ↦ 10. -/
theorem get_unstakable_boundary_table (bn start : Nat) (h : start ≤ bn) :
    (bn - start = 0 → Staking.new.get_unstakable bn start = 0)
    ∧ ((bn - start) * 5 / 86400 = 1 → Staking.new.get_unstakable bn start = 5)
    ∧ ((bn - start) * 5 / 86400 = 5 → Staking.new.get_unstakable bn start = 9)
    ∧ ((bn - start) * 5 / 86400 = 6 → Staking.new.get_unstakable bn start = 10)
    ∧ ((bn - start) * 5 / 86400 = 100 →
        Staking.new.get_unstakable bn start = 10)
    ∧ ((bn - start) * 5 / 86400 = 0 → Staking.new.get_unstakable bn start = 0)
    ∧ (∀ c, (bn - start) * 5 / 86400 = c → 1 ≤ c → c ≤ 5 →
        Staking.new.get_unstakable bn start = 4 + c)
    ∧ (5 < (bn - start) * 5 / 86400 →
        Staking.new.get_unstakable bn start = 10) := by
  rw [new_get_unstakable_clocks bn start h]
  refine ⟨?_, ?_, ?_, ?_, ?_, ?_, ?_, ?_⟩
  · intro h0
    rw [h0]
    norm_num
  · intro h1; split_ifs <;> omega
  · intro h1; split_ifs <;> omega
  · intro h1; split_ifs <;> omega
  · intro h1; split_ifs <;> omega
  · intro h1; split_ifs <;> omega
  · intro c h1 h2 h3; split_ifs <;> omega
  · intro h1; rw [if_pos h1]

/-- Witness for C4: at `bn = 86400`, `start = 0` we have `clocks = 5` and
level 9; at `bn = 104000`, `start = 0` we have `clocks = 6` and
level 10. -/
theorem get_unstakable_boundary_table_witness :
    Staking.new.get_unstakable 86400 0 = 9
    ∧ Staking.new.get_unstakable 104000 0 = 10 :=
  ⟨(get_unstakable_boundary_table 86400 0 (by decide)).2.2.1 (by norm_num),
   (get_unstakable_boundary_table 104000 0 (by decide)).2.2.2.1 (by norm_num)⟩

/-! ## Termination of the reconciliation loops -/

lemma claimLoopF_isSome (s : Staking) (bn : Nat) :
    ∀ fuel staked unO i a, staked.length - i < fuel →
      (claimLoopF s bn fuel staked unO i a).isSome = true := by
  intro fuel
  induction fuel with
  | zero => intro staked unO i a h; exact absurd h (by omega)
  | succ f ih =>
    intro staked unO i a h
    rw [claimLoopF]
    split
    next hg =>
      split
      next => rfl
      next st hst =>
        split
        next => rfl
        next unL =>
          split
          next => rfl
          next w hw =>
            split_ifs with h1 h2 h3
            · rfl
            · exact ih _ _ _ _ (by rw [List.length_eraseIdx_of_lt hg.1]; omega)
            · exact ih _ _ _ _ (by omega)
            · rfl
    next => rfl

lemma claimAllLoopF_isSome (s : Staking) (bn : Nat) :
    ∀ fuel staked unO i, staked.length - i < fuel →
      (claimAllLoopF s bn fuel staked unO i).isSome = true := by
  intro fuel
  induction fuel with
  | zero => intro staked unO i h; exact absurd h (by omega)
  | succ f ih =>
    intro staked unO i h
    rw [claimAllLoopF]
    split
    next hg =>
      split
      next => rfl
      next st hst =>
        split
        next => rfl
        next unL =>
          split
          next => rfl
          next w hw =>
            split_ifs with h1 h2
            · exact ih _ _ _ (by rw [List.length_eraseIdx_of_lt hg]; omega)
            · exact ih _ _ _ (by omega)
            · rfl
    next => rfl

/-- C10: the reconciliation loops of `claim` and `claim_all` terminate on
every input: modelling one iteration of the source loop as one unit of
fuel, a budget of `staked.length - i + 1` iterations always suffices —
each iteration either ends the loop, removes the pair at the current
index (shrinking `length - i`), or advances the index, so the fuelled
loops never exhaust their budget (they return `some _`, whether the body
completes or aborts in per-iteration arithmetic). -/
theorem claim_loops_terminate (s : Staking) (bn : Nat) (staked : List Stake)
    (unO : Option (List Nat)) (i a : Nat) :
    (claimLoopF s bn (staked.length - i + 1) staked unO i a).isSome = true
    ∧ (claimAllLoopF s bn (staked.length - i + 1) staked unO i).isSome = true :=
  ⟨claimLoopF_isSome s bn _ staked unO i a (by omega),
   claimAllLoopF_isSome s bn _ staked unO i (by omega)⟩


/-! ## The equal-length invariant of the two parallel sequences -/

lemma claimLoopF_sync (s : Staking) (bn : Nat) :
    ∀ fuel staked unL i a st2 unO2,
      staked.length = unL.length →
      claimLoopF s bn fuel staked (some unL) i a = some (some (st2, unO2)) →
      ∃ unL2, unO2 = some unL2 ∧ st2.length = unL2.length := by
  intro fuel
  induction fuel with
  | zero => intro staked unL i a st2 unO2 hlen hres; cases hres
  | succ f ih =>
    intro staked unL i a st2 unO2 hlen hres
    rw [claimLoopF] at hres
    split at hres
    next hg =>
      split at hres
      next => cases hres
      next st hst =>
        split at hres
        next => cases hres
        next unL1 hw1 =>
          obtain rfl : unL1 = unL := by injection hw1 with h; exact h.symm
          split at hres
          next => cases hres
          next w hw =>
            split_ifs at hres with h1 h2 h3
            · cases hres
              exact ⟨_, rfl, by simp [hlen]⟩
            · refine ih _ _ _ _ _ _ ?_ hres
              rw [List.length_eraseIdx_of_lt hg.1,
                List.length_eraseIdx_of_lt (by rw [List.length_set]; omega),
                List.length_set]
              omega
            · refine ih _ _ _ _ _ _ ?_ hres
              rw [List.length_set]
              exact hlen
            · cases hres
    next =>
      cases hres
      exact ⟨unL, rfl, hlen⟩

lemma claimAllLoopF_sync (s : Staking) (bn : Nat) :
    ∀ fuel staked unL i st2 unO2,
      staked.length = unL.length →
      claimAllLoopF s bn fuel staked (some unL) i = some (some (st2, unO2)) →
      ∃ unL2, unO2 = some unL2 ∧ st2.length = unL2.length := by
  intro fuel
  induction fuel with
  | zero => intro staked unL i st2 unO2 hlen hres; cases hres
  | succ f ih =>
    intro staked unL i st2 unO2 hlen hres
    rw [claimAllLoopF] at hres
    split at hres
    next hg =>
      split at hres
      next => cases hres
      next st hst =>
        split at hres
        next => cases hres
        next unL1 hw1 =>
          obtain rfl : unL1 = unL := by injection hw1 with h; exact h.symm
          split at hres
          next => cases hres
          next w hw =>
            split_ifs at hres with h1 h2
            · refine ih _ _ _ _ _ ?_ hres
              rw [List.length_eraseIdx_of_lt hg,
                List.length_eraseIdx_of_lt (by rw [List.length_set]; omega),
                List.length_set]
              omega
            · refine ih _ _ _ _ _ ?_ hres
              rw [List.length_set]
              exact hlen
            · cases hres
    next =>
      cases hres
      exact ⟨unL, rfl, hlen⟩

lemma stake_sync (s : Staking) (env : Env) (amt : Nat) (hinv : SyncInv s) :
    SyncInv (s.stake env amt).1 := by
  unfold Staking.stake
  split
  · exact hinv
  · intro a
    by_cases ha : a = env.caller
    · subst ha
      obtain ⟨h1, h2⟩ := hinv env.caller
      cases hs : s.staked env.caller <;> cases hu : s.unstaked env.caller <;>
        rw [hs, hu] at h1 h2 <;> simp_all [mapSet]
    · obtain ⟨h1, h2⟩ := hinv a
      simp only [mapSet, if_neg ha]
      exact ⟨h1, h2⟩

lemma claim_sync (s : Staking) (env : Env) (amt : Nat) (s2 : Staking)
    (calls : List Call) (hinv : SyncInv s)
    (hres : s.claim env amt = some (s2, calls)) : SyncInv s2 := by
  unfold Staking.claim at hres
  split at hres
  next => cases hres
  next b hb =>
    split_ifs at hres with hlt
    · cases hres; exact hinv
    · split at hres
      next => cases hres
      next stakedV hstk =>
        obtain ⟨hsome, hlen0⟩ := hinv env.caller
        rw [hstk] at hsome hlen0
        cases hu : s.unstaked env.caller with
        | none => rw [hu] at hsome; simp at hsome
        | some unL =>
          rw [hu] at hlen0
          have hlen : stakedV.length = unL.length := by simpa using hlen0
          rw [hu] at hres
          split at hres
          next => cases hres
          next => cases hres
          next st2' un2' hloop =>
            obtain ⟨unL2, rfl, hlen2⟩ :=
              claimLoopF_sync s env.blockNumber _ _ _ _ _ _ _ hlen hloop
            cases hres
            intro a
            by_cases ha : a = env.caller
            · subst ha
              refine ⟨?_, ?_⟩ <;> simp [mapSet, hlen2]
            · obtain ⟨h1, h2⟩ := hinv a
              simp only [mapSet, if_neg ha]
              exact ⟨h1, h2⟩

lemma claim_all_sync (s : Staking) (env : Env) (s2 : Staking)
    (calls : List Call) (hinv : SyncInv s)
    (hres : s.claim_all env = some (s2, calls)) : SyncInv s2 := by
  unfold Staking.claim_all at hres
  split at hres
  next => cases hres
  next b hb =>
    split_ifs at hres with hlt
    · cases hres; exact hinv
    · split at hres
      next => cases hres
      next stakedV hstk =>
        obtain ⟨hsome, hlen0⟩ := hinv env.caller
        rw [hstk] at hsome hlen0
        cases hu : s.unstaked env.caller with
        | none => rw [hu] at hsome; simp at hsome
        | some unL =>
          rw [hu] at hlen0
          have hlen : stakedV.length = unL.length := by simpa using hlen0
          rw [hu] at hres
          split at hres
          next => cases hres
          next => cases hres
          next st2' un2' hloop =>
            obtain ⟨unL2, rfl, hlen2⟩ :=
              claimAllLoopF_sync s env.blockNumber _ _ _ _ _ _ hlen hloop
            cases hres
            intro a
            by_cases ha : a = env.caller
            · subst ha
              refine ⟨?_, ?_⟩ <;> simp [mapSet, hlen2]
            · obtain ⟨h1, h2⟩ := hinv a
              simp only [mapSet, if_neg ha]
              exact ⟨h1, h2⟩

/-- C7: for every account the stake-entry sequence and the
withdrawn-amount sequence are kept in lockstep: they are both absent or
both present with equal lengths in the initial state, and this is
preserved by `stake` (which appends one element to each) and by every
successful run of `claim` and `claim_all` (whose loops update both
sequences at the same index and remove from both at the same index). -/
theorem parallel_sequences_equal_length :
    SyncInv Staking.new
    ∧ (∀ s env amt, SyncInv s → SyncInv (Staking.stake s env amt).1)
    ∧ (∀ s env amt s2 calls, SyncInv s →
        Staking.claim s env amt = some (s2, calls) → SyncInv s2)
    ∧ (∀ s env s2 calls, SyncInv s →
        Staking.claim_all s env = some (s2, calls) → SyncInv s2) :=
  ⟨fun _ => ⟨rfl, rfl⟩,
   fun s env amt h => stake_sync s env amt h,
   fun s env amt s2 calls h hres => claim_sync s env amt s2 calls h hres,
   fun s env s2 calls h hres => claim_all_sync s env s2 calls h hres⟩

/-- Witness for C7: the invariant after a concrete deposit, obtained from
the preservation statement applied to the fresh state. -/
theorem parallel_sequences_equal_length_witness :
    SyncInv (Staking.stake Staking.new (envA 0) 100).1 :=
  parallel_sequences_equal_length.2.1 Staking.new (envA 0) 100
    (fun _ => ⟨rfl, rfl⟩)

/-! ## Rejected claims are silent no-ops -/

/-- C6: whenever the requested amount strictly exceeds the claimable
balance computed by `get_balance`, `claim` returns the state unchanged
(every account's `staked` and `unstaked` sequences are the very same) and
instructs no token call at all. -/
theorem claim_rejected_no_state_change (s : Staking) (env : Env)
    (amt b : Nat) (hb : s.get_balance env.blockNumber env.caller = some b)
    (hlt : b < amt) :
    s.claim env amt = some (s, []) := by
  unfold Staking.claim
  rw [hb]
  simp [hlt]

/-- Witness for C6: `sA` holds a claimable balance of 9 at block 86400,
and requesting 100 is a silent no-op. -/
theorem claim_rejected_no_state_change_witness :
    sA.claim (envA 86400) 100 = some (sA, []) :=
  claim_rejected_no_state_change sA (envA 86400) 100 9 (by decide) (by decide)

/-! ## The deposit frame property -/

/-- C8: when the caller's external token balance covers the amount,
`stake` appends exactly one pair — amount `amt`, timestamp the current
block number, withdrawn amount 0 — at the end of the caller's two
sequences (creating them when absent, so a fresh account gets
singletons), leaves every other account's sequences untouched, and keeps
all prior entries of the caller unchanged and in order (they form the
unchanged prefix of the append).  Since the new entry is always appended,
two deposits are never merged, even in the same tick. -/
theorem stake_appends_single_pair (s : Staking) (env : Env) (amt : Nat)
    (h : amt ≤ env.tokenBalance env.caller) :
    (s.stake env amt).1.staked env.caller =
      some (((s.staked env.caller).getD []) ++
        [{ amount := amt, timestamp := env.blockNumber }])
    ∧ (s.stake env amt).1.unstaked env.caller =
      some (((s.unstaked env.caller).getD []) ++ [0])
    ∧ ∀ a, a ≠ env.caller →
        (s.stake env amt).1.staked a = s.staked a
        ∧ (s.stake env amt).1.unstaked a = s.unstaked a := by
  unfold Staking.stake
  rw [if_neg (by omega)]
  refine ⟨?_, ?_, ?_⟩
  · cases hs : s.staked env.caller <;> simp [mapSet, hs]
  · cases hu : s.unstaked env.caller <;> simp [mapSet, hu]
  · intro a ha
    constructor <;> simp [mapSet, ha]

/-- Witness for C8: a concrete deposit on the fresh state, plus the frame
part at the unrelated account 2. -/
theorem stake_appends_single_pair_witness :
    (Staking.new.stake (envA 0) 100).1.staked 1 =
      some ([] ++ [{ amount := 100, timestamp := 0 }])
    ∧ (Staking.new.stake (envA 0) 100).1.staked 2 = Staking.new.staked 2 :=
  ⟨(stake_appends_single_pair Staking.new (envA 0) 100 (by decide)).1,
   ((stake_appends_single_pair Staking.new (envA 0) 100 (by decide)).2.2 2
     (by decide)).1⟩

/-! ## The nth-stake accessors ignore their index argument -/

/-- C3 (code evaluated at the failing input): on the state `sC`, where
account 1 holds entry 0 = (amount 100, timestamp 0) and entry 1 =
(amount 50, timestamp 7), the accessors called with `_index = 1` return
entry 0's fields (timestamp 0, amount 100), not entry 1's (timestamp 7,
amount 50): the source always indexes `[0]`. -/
theorem nth_accessor_ignores_index :
    sC.staked 1 = some [{ amount := 100, timestamp := 0 },
                        { amount := 50, timestamp := 7 }]
    ∧ sC.get_staked_timestamp 1 1 = some 0
    ∧ sC.get_staked_amount 1 1 = some 100
    ∧ sC.get_staked_timestamp 1 1 ≠ some 7
    ∧ sC.get_staked_amount 1 1 ≠ some 50 := by
  decide

/-! ## The transfer direction of claim_all -/

/-- C2 (code evaluated at the failing input): on `sA` at block 86400
(claimable balance 9 > 0; the caller is account 1, the contract account
0), `claim_all` instructs `transfer_from(caller, contract, 9)` — the
caller is the `from` argument and the contract the `to` argument — not a
transfer from the contract to the caller as the claim states. -/
theorem claim_all_transfer_direction :
    sA.get_balance 86400 1 = some 9
    ∧ (sA.claim_all (envA 86400)).map Prod.snd =
        some [Call.approve 1 0 9, Call.transfer 1 0 9]
    ∧ (sA.claim_all (envA 86400)).map Prod.snd ≠
        some [Call.approve 0 1 9, Call.transfer 0 1 9] := by
  decide

/-! ## Partiality of the balance query -/

lemma balanceFrom_underflow (s : Staking) (bn : Nat) (stakedV : List Stake)
    (unL : List Nat) :
    ∀ n i balance j st w, i + n = stakedV.length → i ≤ j →
      stakedV[j]? = some st → unL[j]? = some w →
      st.timestamp * st.amount / 10 < w →
      balanceFrom s bn stakedV (some unL) n i balance = none := by
  intro n
  induction n with
  | zero =>
    intro i balance j st w hin hij hj hw hlt
    have hjl : j < stakedV.length := by
      by_contra hc
      rw [List.getElem?_eq_none (by omega)] at hj
      cases hj
    omega
  | succ k ih =>
    intro i balance j st w hin hij hj hw hlt
    rw [balanceFrom]
    by_cases hji : j = i
    · subst hji
      rw [hj]
      simp [hw, show ¬ w ≤ st.timestamp * st.amount / 10 by omega]
    · split
      · rfl
      next st1 hst1 =>
        split
        · rfl
        next unL1 heq =>
          obtain rfl : unL1 = unL := by injection heq with h; exact h.symm
          split
          · rfl
          next w1 hw1 =>
            split_ifs with hcond
            · exact ih (i + 1) _ j st w (by omega) (by omega) hj hw hlt
            · rfl

lemma get_balance_underflow (s : Staking) (bn : Nat) (addr : AccountId)
    (stakedV : List Stake) (unL : List Nat) (j : Nat) (st : Stake) (w : Nat)
    (hstk : s.staked addr = some stakedV) (hu : s.unstaked addr = some unL)
    (hj : stakedV[j]? = some st) (hw : unL[j]? = some w)
    (hlt : st.timestamp * st.amount / 10 < w) :
    s.get_balance bn addr = none := by
  unfold Staking.get_balance
  rw [hstk, hu]
  exact balanceFrom_underflow s bn stakedV unL stakedV.length 0 0 j st w
    (by omega) (by omega) hj hw hlt

/-- C9: `get_balance` is not total on reachable states.  First part: on
any state holding a pair whose withdrawn amount exceeds
`timestamp * amount / 10`, the unsigned subtraction in `get_balance`
underflows and the query aborts (`none`) instead of returning a value.
Second part: such a state is reachable — after staking 100 at block 0
(state `sA`) and claiming 9 at block 86400 (which the claim loop grants
from its differently-computed per-entry amount), the withdrawn amount 9
exceeds `0 * 100 / 10 = 0`, so `get_balance` aborts, and a further
`claim` aborts the same way inside its own precondition check. -/
theorem get_balance_underflow_reachable :
    (∀ (s : Staking) (bn : Nat) (addr : AccountId) (stakedV : List Stake)
        (unL : List Nat) (j : Nat) (st : Stake) (w : Nat),
      s.staked addr = some stakedV → s.unstaked addr = some unL →
      stakedV[j]? = some st → unL[j]? = some w →
      st.timestamp * st.amount / 10 < w →
      s.get_balance bn addr = none)
    ∧ (sA.claim (envA 86400) 9).isSome = true
    ∧ (sA.claim (envA 86400) 9).map (fun r => r.1.unstaked 1) = some (some [9])
    ∧ ((sA.claim (envA 86400) 9).bind
        (fun r => r.1.get_balance 86400 1)).isNone = true
    ∧ ((sA.claim (envA 86400) 9).bind
        (fun r => r.1.claim (envA 86400) 1)).isNone = true :=
  ⟨fun s bn addr stakedV unL j st w h1 h2 h3 h4 h5 =>
     get_balance_underflow s bn addr stakedV unL j st w h1 h2 h3 h4 h5,
   by decide, by decide, by decide, by decide⟩

/-- The post-claim state of the C9 scenario, written out explicitly:
account 1 holds the stake (amount 100, timestamp 0) with withdrawn
amount 9. -/
def sU : Staking :=
  { staked := mapSet (fun _ => none) 1 (some [{ amount := 100, timestamp := 0 }])
    unstaked := mapSet (fun _ => none) 1 (some [9])
    staking_time := 86400 * 5
    block_time := 5 }

/-- Witness for C9 at the concrete underflowing state `sU`. -/
theorem get_balance_underflow_reachable_witness :
    sU.get_balance 86400 1 = none :=
  get_balance_underflow_reachable.1 sU 86400 1
    [{ amount := 100, timestamp := 0 }] [9] 0
    { amount := 100, timestamp := 0 } 9 rfl rfl rfl rfl (by decide)

/-! ## The per-entry formula used by the claim walk -/

/-- C1 counterexample: the per-entry unlockable amount `u` used by the
walk of `claim` is NOT the value `get_balance` contributes for the same
pair.  On the reachable state `sA` (one stake of 100 at timestamp 0,
nothing withdrawn) at block 86400, the walk's `u` is
`get_unstakable(0) * 100 / 10 - 0 = 90` while `get_balance` contributes
`get_unstakable(0 * 100 / 10 - 0) = 9`. -/
theorem claim_walk_entry_formula_cex :
    sA.staked 1 = some [{ amount := 100, timestamp := 0 }]
    ∧ sA.unstaked 1 = some [0]
    ∧ sA.get_balance 86400 1 =
        some (balanceEntryU Staking.new 86400 { amount := 100, timestamp := 0 } 0)
    ∧ claimEntryU Staking.new 86400 { amount := 100, timestamp := 0 } 0 = 90
    ∧ balanceEntryU Staking.new 86400 { amount := 100, timestamp := 0 } 0 = 9
    ∧ claimEntryU Staking.new 86400 { amount := 100, timestamp := 0 } 0 ≠
        balanceEntryU Staking.new 86400 { amount := 100, timestamp := 0 } 0 := by
  decide

/-- C1 (amended): for every pair the claim walk visits, the per-entry
unlockable amount it uses is
`claimEntryU = get_unstakable(stake.timestamp) * stake.amount / 10 -
withdrawn_amount` — the evaluator applied to the raw timestamp, then
scaled — not the evaluator applied to the derived value as in
`get_balance`.  Stated on a one-pair ledger: the walk grants
`min(remaining, claimEntryU)` and removes the pair exactly when it
becomes fully withdrawn. -/
theorem claim_walk_entry_formula (s : Staking) (bn : Nat) (st : Stake)
    (w a : Nat) (ha : 0 < a)
    (hw : w ≤ s.get_unstakable bn st.timestamp * st.amount / 10) :
    claimLoopF s bn 2 [st] (some [w]) 0 a =
      (if a < claimEntryU s bn st w then
        some (some ([st], some [w + a]))
      else if st.amount = w + claimEntryU s bn st w then
        some (some ([], some []))
      else
        some (some ([st], some [w + claimEntryU s bn st w]))) := by
  rw [claimLoopF, if_pos (show 0 < [st].length ∧ 0 < a from ⟨by simp, ha⟩)]
  simp only [List.getElem?_cons_zero]
  rw [if_pos hw]
  split_ifs with h1 h2
  · simp
  · simp [claimLoopF]
  · simp [claimLoopF]

/-- Witness for C1: on the counterexample pair at block 86400, a request
of 9 is below the walk's `u = 90`, so the whole request is granted from
this single pair. -/
theorem claim_walk_entry_formula_witness :
    claimLoopF Staking.new 86400 2 [{ amount := 100, timestamp := 0 }]
      (some [0]) 0 9 =
      some (some ([{ amount := 100, timestamp := 0 }], some [9])) := by
  rw [claim_walk_entry_formula Staking.new 86400
    { amount := 100, timestamp := 0 } 0 9 (by decide) (by decide)]
  decide
